import Mathlib

/-!
Shallow embedding of the todoist-dump export transform
(`src/processForAI.ts`, `src/utils.ts`, `src/interfaces.ts`).

Raw snapshot records keep the field names of the Sync API payload used by
the code.  JavaScript-specific behaviours are modelled explicitly:

* `Array.prototype.sort` with a numeric comparator is a stable ascending
  sort; the stable sorted permutation of a list is unique, so it is
  modelled by the stable insertion sort `sortByKey`;
* a JS `Map` is an insertion-ordered association list whose `set`
  overwrites the value in place (`keyedInsert` / `jsMapOf`);
* truthiness tests (`if (x)`, `x || y`) on optional strings are modelled
  by `truthyStr` / `jsOrStr` (absent and `""` are falsy);
* `new Date().toISOString()` is an explicit `now : String` parameter of
  `processForAI`; everything else in the function is pure.

The two linking passes (`itemMap.forEach` / `projectMap.forEach`) push the
clean record of each entry into its parent's `subtasks`/`sub_projects`
array.  Because the pushed copies share the mutable `subtasks` array with
the map entry, the final array contents are the full recursive trees; the
map keys are unique by construction of `Map.set`, so the children of an
entry `e` are exactly the entries whose truthy parent id equals `e`'s key,
in map-insertion order (`taskChildrenSrc`, `projChildrenSrc`).  The
recursive tree construction is expressed with a fuel argument; every
chain of parent links reachable from a root passes through distinct map
entries, so fuel `(number of entries)` reproduces the JS object graph
reachable from the root items / root projects.
-/

namespace Todoist

/-- Raw label record (fields read by the code; `is_deleted` is carried by
the payload but never consulted for labels). -/
structure Label where
  id : String
  name : String
  item_order : Int
  is_deleted : Bool
deriving DecidableEq

/-- Raw filter record. -/
structure Filter where
  id : String
  name : String
  query : String
  item_order : Int
  is_deleted : Bool
deriving DecidableEq

/-- Raw `due` object: `date` and the natural-language `string` form. -/
structure Due where
  date : Option String
  string : Option String
deriving DecidableEq

/-- Raw task ("item") record. -/
structure Item where
  id : String
  project_id : String
  section_id : Option String
  parent_id : Option String
  content : String
  description : Option String
  priority : Int
  checked : Int
  due : Option Due
  labels : List String
  child_order : Int
  is_deleted : Bool
deriving DecidableEq

/-- Raw project record. -/
structure Project where
  id : String
  parent_id : Option String
  name : String
  is_archived : Bool
  view_style : String
  child_order : Int
  is_deleted : Bool
deriving DecidableEq

/-- Raw section record. -/
structure Section where
  id : String
  project_id : String
  name : String
  section_order : Int
  is_deleted : Bool
deriving DecidableEq

/-- The flat snapshot handed to `processForAI` (`data`). -/
structure Snapshot where
  projects : List Project
  sections : List Section
  items : List Item
  labels : List Label
  filters : List Filter
deriving DecidableEq

/-- Output task shape (`interfaces.ts` `CleanTask`). -/
inductive CleanTask where
| mk (content : String) (description : Option String) (priority : String)
    (due : Option String) (is_completed : Bool) (labels : List String)
    (subtasks : List CleanTask) : CleanTask

def CleanTask.content : CleanTask → String
| .mk c _ _ _ _ _ _ => c

def CleanTask.description : CleanTask → Option String
| .mk _ d _ _ _ _ _ => d

def CleanTask.priority : CleanTask → String
| .mk _ _ p _ _ _ _ => p

def CleanTask.due : CleanTask → Option String
| .mk _ _ _ u _ _ _ => u

def CleanTask.is_completed : CleanTask → Bool
| .mk _ _ _ _ b _ _ => b

def CleanTask.labels : CleanTask → List String
| .mk _ _ _ _ _ l _ => l

def CleanTask.subtasks : CleanTask → List CleanTask
| .mk _ _ _ _ _ _ st => st

/-- Output section shape (`interfaces.ts` `CleanSection`). -/
structure CleanSection where
  name : String
  tasks : List CleanTask

/-- Output filter shape (`interfaces.ts` `CleanFilter`). -/
structure CleanFilter where
  name : String
  query : String
deriving DecidableEq

/-- Output project shape (`interfaces.ts` `CleanProject`). -/
inductive CleanProject where
| mk (project : String) (is_archived : Bool) (view_style : String)
    (sections : List CleanSection) (tasks : List CleanTask)
    (sub_projects : List CleanProject) : CleanProject

def CleanProject.project : CleanProject → String
| .mk n _ _ _ _ _ => n

def CleanProject.is_archived : CleanProject → Bool
| .mk _ a _ _ _ _ => a

def CleanProject.view_style : CleanProject → String
| .mk _ _ v _ _ _ => v

def CleanProject.sections : CleanProject → List CleanSection
| .mk _ _ _ s _ _ => s

def CleanProject.tasks : CleanProject → List CleanTask
| .mk _ _ _ _ t _ => t

def CleanProject.sub_projects : CleanProject → List CleanProject
| .mk _ _ _ _ _ sp => sp

/-- `meta.stats` of the export. -/
structure Stats where
  total_projects : Nat
  total_tasks : Nat
  total_labels : Nat
  total_filters : Nat
deriving DecidableEq

/-- `meta` of the export. -/
structure ExportMeta where
  generated_at : String
  stats : Stats
deriving DecidableEq

/-- `global_definitions` of the export. -/
structure GlobalDefs where
  available_labels : List String
  available_filters : List CleanFilter
deriving DecidableEq

/-- The export root (`interfaces.ts` `FullExport`). -/
structure FullExport where
  meta : ExportMeta
  global_definitions : GlobalDefs
  projects_tree : List CleanProject

/-! ## JavaScript helpers -/

/-- JS truthiness of an optional string (`undefined`/`null`/`""` are falsy). -/
def truthyStr : Option String → Bool
| none => false
| some s => decide (s ≠ "")

/-- JS `a || b` on optional strings. -/
def jsOrStr (a b : Option String) : Option String :=
  match a with
  | some s => if s ≠ "" then some s else b
  | none => b

/-- One step of a stable ascending sort by an integer key: insert `x`
into the already-sorted `acc`, after every element whose key is `≤`. -/
def insertSorted (f : α → Int) : List α → α → List α
| [], x => [x]
| y :: ys, x => if f y ≤ f x then y :: insertSorted f ys x else x :: y :: ys

/-- JS `Array.prototype.sort` with comparator `(a, b) => f(a) - f(b)`:
the stable ascending permutation by key `f`.  The stable sorted
permutation of a list is unique, so modelling it by stable insertion
sort is algorithm-independent. -/
def sortByKey (f : α → Int) (l : List α) : List α :=
  l.foldl (insertSorted f) []

/-- One JS `Map.set`: overwrite in place when the key is present, append
otherwise.  The map is the insertion-ordered list of its entries. -/
def keyedInsert (key : α → String) (m : List α) (i : α) : List α :=
  if m.any (fun j => decide (key j = key i)) then
    m.map (fun j => if key j = key i then i else j)
  else
    m ++ [i]

/-- Entries of the JS `Map` built by `set`-ing each element of `l` in
order, in iteration (insertion) order. -/
def jsMapOf (key : α → String) (l : List α) : List α :=
  l.foldl (keyedInsert key) []

/-! ## `utils.ts` -/

/-- `mapPriority` (`utils.ts`): the `switch` on the raw priority. -/
def mapPriority (p : Int) : String :=
  if p = 4 then "P1"
  else if p = 3 then "P2"
  else if p = 2 then "P3"
  else if p = 1 then "P4"
  else "P4"

/-! ## Labels and filters -/

/-- `data.labels.sort((a, b) => a.item_order - b.item_order)`. -/
def sortedLabels (s : Snapshot) : List Label :=
  sortByKey (fun l => l.item_order) s.labels

/-- `allLabelNames`: names pushed while walking the sorted labels. -/
def allLabelNames (s : Snapshot) : List String :=
  (sortedLabels s).map (fun l => l.name)

/-- `labelMap`: a JS `Map` from label id to name, `set` per sorted label. -/
def labelMapList (s : Snapshot) : List (String × String) :=
  jsMapOf Prod.fst ((sortedLabels s).map (fun l => (l.id, l.name)))

/-- `labelMap.get(id)`. -/
def labelMapGet (s : Snapshot) (lid : String) : Option String :=
  ((labelMapList s).find? (fun e => decide (e.1 = lid))).map Prod.snd

/-- `labelMap.get(id) || "Unknown Label"`. -/
def resolveLabel (s : Snapshot) (lid : String) : String :=
  match labelMapGet s lid with
  | some n => if n ≠ "" then n else "Unknown Label"
  | none => "Unknown Label"

/-- `allFilters`: live filters sorted by `item_order`, projected to
`{name, query}`. -/
def allFilters (s : Snapshot) : List CleanFilter :=
  (sortByKey (fun f => f.item_order) (s.filters.filter (fun f => !f.is_deleted))).map
    (fun f => { name := f.name, query := f.query })

/-! ## Task tree -/

/-- `sortedRawItems`: items stably sorted by `child_order`. -/
def sortedRawItems (s : Snapshot) : List Item :=
  sortByKey (fun i => i.child_order) s.items

/-- The non-deleted items, in sorted order (the ones `set` into `itemMap`). -/
def liveSortedItems (s : Snapshot) : List Item :=
  (sortedRawItems s).filter (fun i => !i.is_deleted)

/-- The entries of `itemMap` in iteration order (raw items stand for the
clean records; the clean fields are recomputed from them when needed). -/
def itemEntries (s : Snapshot) : List Item :=
  jsMapOf (fun i => i.id) (liveSortedItems s)

/-- `item.description || undefined`. -/
def cleanDescription : Option String → Option String
| some d => if d ≠ "" then some d else none
| none => none

/-- `item.due ? item.due.string || item.due.date : undefined`. -/
def cleanDue : Option Due → Option String
| none => none
| some d => jsOrStr d.string d.date

/-- The children appended to entry `e`'s `subtasks` during the linking
pass: entries with a truthy `parent_id` equal to `e`'s key, in map
iteration order. -/
def taskChildrenSrc (s : Snapshot) (e : Item) : List Item :=
  (itemEntries s).filter
    (fun c => truthyStr c.parent_id && decide (c.parent_id = some e.id))

/-- The clean record of an item together with its (aliased, hence fully
linked) `subtasks` array, unfolded to the given depth. -/
def cleanTaskTree (s : Snapshot) : Nat → Item → CleanTask
| 0 => fun i =>
    .mk i.content (cleanDescription i.description) (mapPriority i.priority)
      (cleanDue i.due) (decide (i.checked = 1)) (i.labels.map (resolveLabel s)) []
| fuel + 1 => fun i =>
    .mk i.content (cleanDescription i.description) (mapPriority i.priority)
      (cleanDue i.due) (decide (i.checked = 1)) (i.labels.map (resolveLabel s))
      ((taskChildrenSrc s i).map (cleanTaskTree s fuel))

/-- `item.parent_id && itemMap.has(item.parent_id)`. -/
def hasLiveParent (s : Snapshot) (e : Item) : Bool :=
  truthyStr e.parent_id &&
    (itemEntries s).any (fun j => decide (some j.id = e.parent_id))

/-- `rootItems`: entries not attached to a parent, in iteration order. -/
def rootItems (s : Snapshot) : List Item :=
  (itemEntries s).filter (fun e => !hasLiveParent s e)

/-- Fuel sufficient for every parent chain among the item entries. -/
def itemFuel (s : Snapshot) : Nat :=
  (itemEntries s).length

/-- The bucket `itemsByProjectAndSection.get(pid).sections.get(sid)`:
root items of project `pid` with truthy section id `sid`, in root order
(an absent bucket is the empty list, matching `|| []`). -/
def sectionTasksSrc (s : Snapshot) (pid sid : String) : List Item :=
  (rootItems s).filter
    (fun e => decide (e.project_id = pid) && truthyStr e.section_id &&
      decide (e.section_id = some sid))

/-- The bucket `itemsByProjectAndSection.get(pid).noSection`. -/
def noSectionSrc (s : Snapshot) (pid : String) : List Item :=
  (rootItems s).filter
    (fun e => decide (e.project_id = pid) && !truthyStr e.section_id)

/-! ## Project tree -/

/-- The non-deleted projects in raw order (the ones `set` into `projectMap`). -/
def liveProjects (s : Snapshot) : List Project :=
  s.projects.filter (fun p => !p.is_deleted)

/-- The entries of `projectMap` in iteration order. -/
def projectEntries (s : Snapshot) : List Project :=
  jsMapOf (fun p => p.id) (liveProjects s)

/-- `rawSections` for a project, after the in-place `sort` by
`section_order`. -/
def sortedLiveSections (s : Snapshot) (pid : String) : List Section :=
  sortByKey (fun sec => sec.section_order)
    (s.sections.filter (fun sec => decide (sec.project_id = pid) && !sec.is_deleted))

/-- `projectSections` of a project: one `CleanSection` per live section,
carrying the matching task bucket (possibly empty). -/
def projSections (s : Snapshot) (pid : String) : List CleanSection :=
  (sortedLiveSections s pid).map
    (fun sec =>
      { name := sec.name,
        tasks := (sectionTasksSrc s pid sec.id).map (cleanTaskTree s (itemFuel s)) })

/-- The children appended to project entry `p`'s `sub_projects` during the
linking pass, in map iteration order. -/
def projChildrenSrc (s : Snapshot) (p : Project) : List Project :=
  (projectEntries s).filter
    (fun c => truthyStr c.parent_id && decide (c.parent_id = some p.id))

/-- `p._parentId && projectMap.has(p._parentId)`. -/
def projHasLiveParent (s : Snapshot) (p : Project) : Bool :=
  truthyStr p.parent_id &&
    (projectEntries s).any (fun q => decide (some q.id = p.parent_id))

/-- `rootProjects`, in map iteration order (before the final sort). -/
def rootProjects (s : Snapshot) : List Project :=
  (projectEntries s).filter (fun p => !projHasLiveParent s p)

/-- Fuel sufficient for every parent chain among the project entries. -/
def projFuel (s : Snapshot) : Nat :=
  (projectEntries s).length

/-- `p.sub_projects.sort((a, b) => a._childOrder - b._childOrder)` applied
to the linked children of `p`. -/
def sortedProjChildren (s : Snapshot) (p : Project) : List Project :=
  sortByKey (fun q => q.child_order) (projChildrenSrc s p)

/-- `finalizeProject`: sort the children by `_childOrder`, recurse, and
strip the linkage-only fields. -/
def finalizeProject (s : Snapshot) : Nat → Project → CleanProject
| 0 => fun p =>
    .mk p.name p.is_archived p.view_style (projSections s p.id)
      ((noSectionSrc s p.id).map (cleanTaskTree s (itemFuel s))) []
| fuel + 1 => fun p =>
    .mk p.name p.is_archived p.view_style (projSections s p.id)
      ((noSectionSrc s p.id).map (cleanTaskTree s (itemFuel s)))
      ((sortedProjChildren s p).map (finalizeProject s fuel))

/-- `rootProjects.sort(...)` followed by `map(finalizeProject)`. -/
def sortedRootProjects (s : Snapshot) : List Project :=
  sortByKey (fun p => p.child_order) (rootProjects s)

/-- `finalProjectsTree`. -/
def projectsTree (s : Snapshot) : List CleanProject :=
  (sortedRootProjects s).map (finalizeProject s (projFuel s))

/-- `processForAI` (`processForAI.ts`).  `now` is the value of
`new Date().toISOString()` at the return statement. -/
def processForAI (now : String) (s : Snapshot) : FullExport :=
  { meta :=
    { generated_at := now,
      stats :=
      { total_projects := s.projects.length,
        total_tasks := s.items.length,
        total_labels := (allLabelNames s).length,
        total_filters := (allFilters s).length } },
    global_definitions :=
    { available_labels := allLabelNames s,
      available_filters := allFilters s },
    projects_tree := projectsTree s }

/-! ## Collectors over the output tree

Used to quantify over every object at every nesting depth of an export. -/

mutual

/-- A clean task together with all tasks nested beneath it. -/
def taskSelfAndDesc : CleanTask → List CleanTask
| .mk c d p u b labs subs => .mk c d p u b labs subs :: tasksSelfAndDesc subs

/-- All tasks of a list, each with all tasks nested beneath it. -/
def tasksSelfAndDesc : List CleanTask → List CleanTask
| [] => []
| t :: ts => taskSelfAndDesc t ++ tasksSelfAndDesc ts

end

mutual

/-- A clean project together with all projects nested beneath it. -/
def projSelfAndDesc : CleanProject → List CleanProject
| .mk n a v secs ts subs => .mk n a v secs ts subs :: projsSelfAndDesc subs

/-- All projects of a list, each with all projects nested beneath it. -/
def projsSelfAndDesc : List CleanProject → List CleanProject
| [] => []
| p :: ps => projSelfAndDesc p ++ projsSelfAndDesc ps

end

/-- Every `CleanProject` occurring anywhere in the export. -/
def exportProjects (e : FullExport) : List CleanProject :=
  projsSelfAndDesc e.projects_tree

/-- Every `CleanSection` occurring anywhere in the export. -/
def exportSections (e : FullExport) : List CleanSection :=
  ((exportProjects e).map (fun p => p.sections)).flatten

/-- Every `CleanTask` occurring anywhere in the export, at any depth. -/
def exportTasks (e : FullExport) : List CleanTask :=
  tasksSelfAndDesc
    (((exportProjects e).map
        (fun p => p.tasks ++ (p.sections.map (fun sec => sec.tasks)).flatten)).flatten)

/-! ## JSON serialization (the export's external contract)

`JSON.stringify` of the export: object fields in interface order, optional
fields omitted when absent. -/

/-- JSON value tree. -/
inductive Json where
| str (s : String) : Json
| bool (b : Bool) : Json
| num (n : Nat) : Json
| arr (l : List Json) : Json
| obj (kvs : List (String × Json)) : Json

/-- An optional string field: omitted when `undefined`. -/
def optStrField (k : String) : Option String → List (String × Json)
| some v => [(k, Json.str v)]
| none => []

mutual

/-- Serialization of a clean task. -/
def CleanTask.toJson : CleanTask → Json
| .mk c d p u b labs subs =>
  Json.obj ([("content", Json.str c)] ++ optStrField "description" d ++
    [("priority", Json.str p)] ++ optStrField "due" u ++
    [("is_completed", Json.bool b), ("labels", Json.arr (labs.map Json.str)),
     ("subtasks", Json.arr (taskListJson subs))])

/-- Serialization of a list of clean tasks. -/
def taskListJson : List CleanTask → List Json
| [] => []
| t :: ts => CleanTask.toJson t :: taskListJson ts

end

/-- Serialization of a clean section. -/
def CleanSection.toJson (cs : CleanSection) : Json :=
  Json.obj [("name", Json.str cs.name), ("tasks", Json.arr (taskListJson cs.tasks))]

mutual

/-- Serialization of a clean project. -/
def CleanProject.toJson : CleanProject → Json
| .mk n a v secs ts subs =>
  Json.obj [("project", Json.str n), ("is_archived", Json.bool a),
    ("view_style", Json.str v),
    ("sections", Json.arr (secs.map CleanSection.toJson)),
    ("tasks", Json.arr (taskListJson ts)),
    ("sub_projects", Json.arr (projListJson subs))]

/-- Serialization of a list of clean projects. -/
def projListJson : List CleanProject → List Json
| [] => []
| p :: ps => CleanProject.toJson p :: projListJson ps

end

/-- Serialization of a clean filter. -/
def CleanFilter.toJson (cf : CleanFilter) : Json :=
  Json.obj [("name", Json.str cf.name), ("query", Json.str cf.query)]

/-- Serialization of the whole export. -/
def FullExport.toJson (e : FullExport) : Json :=
  Json.obj
    [("meta", Json.obj
      [("generated_at", Json.str e.meta.generated_at),
       ("stats", Json.obj
         [("total_projects", Json.num e.meta.stats.total_projects),
          ("total_tasks", Json.num e.meta.stats.total_tasks),
          ("total_labels", Json.num e.meta.stats.total_labels),
          ("total_filters", Json.num e.meta.stats.total_filters)])]),
     ("global_definitions", Json.obj
       [("available_labels",
         Json.arr (e.global_definitions.available_labels.map Json.str)),
        ("available_filters",
         Json.arr (e.global_definitions.available_filters.map CleanFilter.toJson))]),
     ("projects_tree", Json.arr (projListJson e.projects_tree))]

mutual

/-- All object keys occurring anywhere in a JSON value. -/
def Json.keys : Json → List String
| .str _ => []
| .bool _ => []
| .num _ => []
| .arr l => keysOfList l
| .obj kvs => keysOfKVs kvs

/-- All object keys in a list of JSON values. -/
def keysOfList : List Json → List String
| [] => []
| j :: js => Json.keys j ++ keysOfList js

/-- All object keys in a key-value list: the keys themselves and every
key nested in the values. -/
def keysOfKVs : List (String × Json) → List String
| [] => []
| (k, j) :: rest => k :: (Json.keys j ++ keysOfKVs rest)

end

/-- The object keys declared by the export interfaces
(`interfaces.ts`): the only keys the serialized export may contain. -/
def exportKeys : List String :=
  ["meta", "generated_at", "stats", "total_projects", "total_tasks",
   "total_labels", "total_filters", "global_definitions",
   "available_labels", "available_filters", "projects_tree", "project",
   "is_archived", "view_style", "sections", "tasks", "sub_projects",
   "name", "query", "content", "description", "priority", "due",
   "is_completed", "labels", "subtasks"]

/-! ## Concrete snapshots used in counterexamples and witnesses -/

/-- A snapshot holding one soft-deleted filter and nothing else. -/
def exDeletedFilter : Snapshot :=
  { projects := [], sections := [], items := [],
    labels := [],
    filters := [{ id := "F", name := "f", query := "q", item_order := 0, is_deleted := true }] }

/-- The empty snapshot. -/
def exEmpty : Snapshot :=
  { projects := [], sections := [], items := [], labels := [], filters := [] }

/-- Two projects, two sections, two items and two labels, each pair given
in reverse display order, with distinct ids. -/
def exOrder : Snapshot :=
  { projects :=
      [{ id := "B", parent_id := none, name := "b", is_archived := false,
         view_style := "list", child_order := 2, is_deleted := false },
       { id := "A", parent_id := none, name := "a", is_archived := false,
         view_style := "list", child_order := 1, is_deleted := false }],
    sections :=
      [{ id := "S2", project_id := "A", name := "s2", section_order := 2,
         is_deleted := false },
       { id := "S1", project_id := "A", name := "s1", section_order := 1,
         is_deleted := false }],
    items :=
      [{ id := "2", project_id := "A", section_id := none, parent_id := none,
         content := "i2", description := none, priority := 1, checked := 0,
         due := none, labels := [], child_order := 2, is_deleted := false },
       { id := "1", project_id := "A", section_id := none, parent_id := none,
         content := "i1", description := none, priority := 1, checked := 0,
         due := none, labels := [], child_order := 1, is_deleted := false }],
    labels :=
      [{ id := "L2", name := "l2", item_order := 2, is_deleted := false },
       { id := "L1", name := "l1", item_order := 1, is_deleted := false }],
    filters := [] }

/-- The project with id `"A"` of `exOrder`. -/
def exOrderProjA : Project :=
  { id := "A", parent_id := none, name := "a", is_archived := false,
    view_style := "list", child_order := 1, is_deleted := false }

/-- The section with id `"S1"` of `exOrder` (it has no tasks). -/
def exOrderSec1 : Section :=
  { id := "S1", project_id := "A", name := "s1", section_order := 1,
    is_deleted := false }

/-- A live task whose `parent_id` names a soft-deleted task. -/
def exOrphanChild : Item :=
  { id := "C1", project_id := "A", section_id := none, parent_id := some "P1",
    content := "child", description := none, priority := 1, checked := 0,
    due := none, labels := [], child_order := 1, is_deleted := false }

/-- One live project; a deleted task `"P1"` and the live `exOrphanChild`
whose parent is `"P1"`. -/
def exOrphan : Snapshot :=
  { projects :=
      [{ id := "A", parent_id := none, name := "a", is_archived := false,
         view_style := "list", child_order := 0, is_deleted := false }],
    sections := [],
    items :=
      [{ id := "P1", project_id := "A", section_id := none, parent_id := none,
         content := "dead parent", description := none, priority := 1,
         checked := 0, due := none, labels := [], child_order := 0,
         is_deleted := true },
       exOrphanChild],
    labels := [], filters := [] }

/-- A live root task whose `section_id` names a soft-deleted section. -/
def exDeadTask : Item :=
  { id := "T", project_id := "A", section_id := some "S", parent_id := none,
    content := "lost", description := none, priority := 1, checked := 0,
    due := none, labels := [], child_order := 0, is_deleted := false }

/-- The live project of `exDead`. -/
def exDeadProjA : Project :=
  { id := "A", parent_id := none, name := "a", is_archived := false,
    view_style := "list", child_order := 0, is_deleted := false }

/-- A live project `"A"`, a soft-deleted section `"S"` of it, and the
live task `exDeadTask` sitting in that dead section. -/
def exDead : Snapshot :=
  { projects := [exDeadProjA],
    sections :=
      [{ id := "S", project_id := "A", name := "s", section_order := 0,
         is_deleted := true }],
    items := [exDeadTask],
    labels := [], filters := [] }

/-- A label whose name is the empty string. -/
def exBlankLabel : Label :=
  { id := "L1", name := "", item_order := 0, is_deleted := false }

/-- A live task carrying the empty-named label `"L1"`. -/
def exBlankItem : Item :=
  { id := "1", project_id := "P", section_id := none, parent_id := none,
    content := "t", description := none, priority := 1, checked := 0,
    due := none, labels := ["L1"], child_order := 0, is_deleted := false }

/-- A snapshot with an empty-named label referenced by a task. -/
def exBlank : Snapshot :=
  { projects := [], sections := [], items := [exBlankItem],
    labels := [exBlankLabel], filters := [] }

/-- A snapshot whose task references one known and one unknown label id. -/
def exLabels : Snapshot :=
  { projects := [], sections := [],
    items :=
      [{ id := "1", project_id := "P", section_id := none, parent_id := none,
         content := "t", description := none, priority := 1, checked := 0,
         due := none, labels := ["L1", "MISSING"], child_order := 0,
         is_deleted := false }],
    labels := [{ id := "L1", name := "work", item_order := 0, is_deleted := false }],
    filters := [] }

end Todoist

namespace Todoist

/-! ## Helper lemmas -/

theorem mem_keyedInsert {key : α → String} {m : List α} {i x : α}
    (h : x ∈ keyedInsert key m i) : x ∈ m ∨ x = i := by
  unfold keyedInsert at h
  split at h
  · rcases List.mem_map.mp h with ⟨j, hj, hx⟩
    by_cases hk : key j = key i
    · right; rw [if_pos hk] at hx; exact hx.symm
    · left; rw [if_neg hk] at hx; exact hx ▸ hj
  · rcases List.mem_append.mp h with hm | hi
    · exact Or.inl hm
    · exact Or.inr (List.mem_singleton.mp hi)

theorem mem_foldl_keyedInsert {key : α → String} :
    ∀ (l acc : List α) (x : α), x ∈ l.foldl (keyedInsert key) acc → x ∈ acc ∨ x ∈ l := by
  intro l
  induction l with
  | nil => intro acc x h; exact Or.inl h
  | cons i t ih =>
    intro acc x h
    rcases ih (keyedInsert key acc i) x h with hacc | ht
    · rcases mem_keyedInsert hacc with hm | hi
      · exact Or.inl hm
      · exact Or.inr (hi ▸ List.mem_cons_self i t)
    · exact Or.inr (List.mem_cons_of_mem i ht)

theorem mem_jsMapOf {key : α → String} {l : List α} {x : α}
    (h : x ∈ jsMapOf key l) : x ∈ l := by
  rcases mem_foldl_keyedInsert l [] x h with h0 | h1
  · cases h0
  · exact h1

theorem keyedInsert_of_not_mem {key : α → String} {m : List α} {i : α}
    (h : key i ∉ m.map key) : keyedInsert key m i = m ++ [i] := by
  unfold keyedInsert
  rw [if_neg]
  simp only [List.any_eq_true, decide_eq_true_eq, not_exists, not_and]
  intro j hj hk
  exact h (hk ▸ List.mem_map_of_mem key hj)

theorem foldl_keyedInsert_eq_append {key : α → String} :
    ∀ (l acc : List α), ((acc ++ l).map key).Nodup →
      l.foldl (keyedInsert key) acc = acc ++ l := by
  intro l
  induction l with
  | nil => intro acc _; simp
  | cons i t ih =>
    intro acc hnd
    have hassoc : acc ++ i :: t = (acc ++ [i]) ++ t := by simp
    have hnd' : (((acc ++ [i]) ++ t).map key).Nodup := by rw [← hassoc]; exact hnd
    have hki : key i ∉ acc.map key := by
      intro hmem
      have hdisj : (acc.map key).Disjoint (key i :: t.map key) :=
        List.disjoint_of_nodup_append (by simpa using hnd)
      exact hdisj hmem (List.mem_cons_self _ _)
    rw [List.foldl_cons, keyedInsert_of_not_mem hki, ih (acc ++ [i]) hnd', hassoc]

theorem jsMapOf_eq_self {key : α → String} {l : List α}
    (h : (l.map key).Nodup) : jsMapOf key l = l := by
  unfold jsMapOf
  have h2 : ∀ acc : List α, ((acc ++ l).map key).Nodup →
      l.foldl (keyedInsert key) acc = acc ++ l :=
    foldl_keyedInsert_eq_append l
  simpa using h2 [] (by simpa using h)

theorem insertSorted_perm (f : α → Int) :
    ∀ (l : List α) (x : α), List.Perm (insertSorted f l x) (x :: l) := by
  intro l
  induction l with
  | nil => intro x; exact List.Perm.refl _
  | cons y ys ih =>
    intro x
    unfold insertSorted
    split
    · exact ((ih x).cons y).trans (List.Perm.swap x y ys)
    · exact List.Perm.refl _

theorem sortByKey_perm (f : α → Int) (l : List α) : List.Perm (sortByKey f l) l := by
  suffices h : ∀ (l acc : List α), List.Perm (l.foldl (insertSorted f) acc) (acc ++ l) by
    simpa using h l []
  intro l
  induction l with
  | nil => intro acc; simp
  | cons x t ih =>
    intro acc
    have h1 : List.Perm (t.foldl (insertSorted f) (insertSorted f acc x))
        (insertSorted f acc x ++ t) := ih _
    have h2 : List.Perm (insertSorted f acc x ++ t) ((x :: acc) ++ t) :=
      (insertSorted_perm f acc x).append_right t
    have h3 : List.Perm ((x :: acc) ++ t) (acc ++ x :: t) := by
      simpa using (@List.perm_append_comm _ [x] acc).append_right t
    exact (h1.trans h2).trans h3

theorem mem_sortByKey {f : α → Int} {l : List α} {x : α} :
    x ∈ sortByKey f l ↔ x ∈ l :=
  (sortByKey_perm f l).mem_iff

theorem length_sortByKey (f : α → Int) (l : List α) :
    (sortByKey f l).length = l.length :=
  (sortByKey_perm f l).length_eq

theorem insertSorted_pairwise {f : α → Int} {l : List α} {x : α}
    (h : l.Pairwise (fun a b => f a ≤ f b)) :
    (insertSorted f l x).Pairwise (fun a b => f a ≤ f b) := by
  induction l with
  | nil => simp [insertSorted]
  | cons y ys ih =>
    rcases List.pairwise_cons.mp h with ⟨hy, hys⟩
    unfold insertSorted
    split
    · rename_i hle
      refine List.pairwise_cons.mpr ⟨?_, ih hys⟩
      intro z hz
      rcases List.mem_cons.mp ((insertSorted_perm f ys x).mem_iff.mp hz) with hzx | hzys
      · exact hzx ▸ hle
      · exact hy z hzys
    · rename_i hgt
      refine List.pairwise_cons.mpr ⟨?_, h⟩
      intro z hz
      have hxy : f x ≤ f y := by omega
      rcases List.mem_cons.mp hz with hzy | hzys
      · exact hzy ▸ hxy
      · exact le_trans hxy (hy z hzys)

theorem sortByKey_pairwise (f : α → Int) (l : List α) :
    (sortByKey f l).Pairwise (fun a b => f a ≤ f b) := by
  suffices h : ∀ (l acc : List α), acc.Pairwise (fun a b => f a ≤ f b) →
      (l.foldl (insertSorted f) acc).Pairwise (fun a b => f a ≤ f b) by
    exact h l [] (by simp)
  intro l
  induction l with
  | nil => intro acc hacc; exact hacc
  | cons x t ih => intro acc hacc; exact ih _ (insertSorted_pairwise hacc)

theorem mem_liveSortedItems {s : Snapshot} {e : Item} (h : e ∈ liveSortedItems s) :
    e ∈ s.items ∧ e.is_deleted = false := by
  unfold liveSortedItems at h
  rcases List.mem_filter.mp h with ⟨h1, h2⟩
  exact ⟨mem_sortByKey.mp h1, by simpa using h2⟩

theorem mem_itemEntries {s : Snapshot} {e : Item} (h : e ∈ itemEntries s) :
    e ∈ s.items ∧ e.is_deleted = false :=
  mem_liveSortedItems (mem_jsMapOf h)

theorem itemEntries_eq_liveSorted {s : Snapshot}
    (hN : (s.items.map (fun i => i.id)).Nodup) :
    itemEntries s = liveSortedItems s := by
  apply jsMapOf_eq_self
  have h1 : ((sortedRawItems s).map (fun i => i.id)).Nodup :=
    (((sortByKey_perm (fun i => i.child_order) s.items).map (fun i => i.id)).nodup_iff).mpr hN
  exact List.Nodup.sublist ((List.filter_sublist _).map _) h1

theorem mem_liveProjects {s : Snapshot} {p : Project} (h : p ∈ liveProjects s) :
    p ∈ s.projects ∧ p.is_deleted = false := by
  unfold liveProjects at h
  rcases List.mem_filter.mp h with ⟨h1, h2⟩
  exact ⟨h1, by simpa using h2⟩

theorem mem_projectEntries {s : Snapshot} {p : Project} (h : p ∈ projectEntries s) :
    p ∈ s.projects ∧ p.is_deleted = false :=
  mem_liveProjects (mem_jsMapOf h)

theorem projectEntries_eq_live {s : Snapshot}
    (hN : (s.projects.map (fun p => p.id)).Nodup) :
    projectEntries s = liveProjects s := by
  apply jsMapOf_eq_self
  exact List.Nodup.sublist ((List.filter_sublist _).map _) hN

theorem itemEntries_pairwise {s : Snapshot}
    (hN : (s.items.map (fun i => i.id)).Nodup) :
    (itemEntries s).Pairwise (fun a b => a.child_order ≤ b.child_order) := by
  rw [itemEntries_eq_liveSorted hN]
  exact List.Pairwise.sublist (List.filter_sublist _)
    (sortByKey_pairwise (fun i => i.child_order) s.items)

theorem rootItems_pairwise {s : Snapshot}
    (hN : (s.items.map (fun i => i.id)).Nodup) :
    (rootItems s).Pairwise (fun a b => a.child_order ≤ b.child_order) :=
  List.Pairwise.sublist (List.filter_sublist _) (itemEntries_pairwise hN)

/-! ## Claim theorems -/

/-- Claim C4: `mapPriority` maps 4 to "P1", 3 to "P2", 2 to "P3", 1 to
"P4", and every other integer to "P4"; it is total. -/
theorem claim_C4 :
    mapPriority 4 = "P1" ∧ mapPriority 3 = "P2" ∧ mapPriority 2 = "P3" ∧
    mapPriority 1 = "P4" ∧
    ∀ p : Int, mapPriority p =
      if p = 4 then "P1" else if p = 3 then "P2" else if p = 2 then "P3" else "P4" := by
  refine ⟨rfl, rfl, rfl, rfl, ?_⟩
  intro p
  unfold mapPriority
  split_ifs <;> rfl

/-- Claim C1 (amended): `total_projects` and `total_tasks` are the raw
collection lengths (soft-deleted records included), and `total_labels` is
the raw label count; but `total_filters` counts only the non-deleted
filters. -/
theorem claim_C1_amended (now : String) (s : Snapshot) :
    (processForAI now s).meta.stats.total_projects = s.projects.length ∧
    (processForAI now s).meta.stats.total_tasks = s.items.length ∧
    (processForAI now s).meta.stats.total_labels = s.labels.length ∧
    (processForAI now s).meta.stats.total_filters =
      (s.filters.filter (fun f => !f.is_deleted)).length := by
  refine ⟨rfl, rfl, ?_, ?_⟩
  · simp [processForAI, allLabelNames, sortedLabels, length_sortByKey]
  · simp [processForAI, allFilters, length_sortByKey]

/-- Claim C1 counterexample: on a snapshot whose only filter is
soft-deleted, `total_filters` is 0, not the raw filter-collection length
1 — so `total_filters` does not include soft-deleted records. -/
theorem claim_C1_cex :
    (processForAI "t" exDeletedFilter).meta.stats.total_filters ≠
      exDeletedFilter.filters.length ∧
    (processForAI "t" exDeletedFilter).meta.stats.total_filters = 0 ∧
    exDeletedFilter.filters.length = 1 := by
  refine ⟨by decide, by decide, rfl⟩

/-- Claim C9 (amended): for a fixed snapshot the whole export is a
function of the snapshot except `meta.generated_at`, which is the
invocation timestamp: two runs differ at most in that field. -/
theorem claim_C9_amended (n1 n2 : String) (s : Snapshot) :
    processForAI n1 s =
      { processForAI n2 s with
        meta := { (processForAI n2 s).meta with generated_at := n1 } } := rfl

/-- Claim C9 counterexample: two invocations on the identical (empty)
snapshot at different timestamps produce different `FullExport` values,
because `meta.generated_at` records the clock. -/
theorem claim_C9_cex :
    processForAI "2024-01-01T00:00:00.000Z" exEmpty ≠
      processForAI "2024-01-02T00:00:00.000Z" exEmpty := by
  intro h
  have h2 : ("2024-01-01T00:00:00.000Z" : String) = "2024-01-02T00:00:00.000Z" :=
    congrArg (fun e => e.meta.generated_at) h
  exact absurd h2 (by decide)

end Todoist

namespace Todoist

/-- Claim C3: sibling tasks (subtasks lists, section task lists, and
project task lists) are ascending in raw `child_order`; sibling projects
(root level and every `sub_projects` list) are ascending in
`child_order`; each project's sections are ascending in `section_order`;
`available_labels` is ascending in label `item_order`.  The output
sibling lists are, definitionally, images of the source lists named
here (last four conjuncts). -/
theorem claim_C3 (now : String) (s : Snapshot)
    (hN : (s.items.map (fun i => i.id)).Nodup) :
    ((itemEntries s).Pairwise (fun a b => a.child_order ≤ b.child_order)) ∧
    (∀ e : Item,
      (taskChildrenSrc s e).Pairwise (fun a b => a.child_order ≤ b.child_order)) ∧
    (∀ pid sid : String,
      (sectionTasksSrc s pid sid).Pairwise (fun a b => a.child_order ≤ b.child_order)) ∧
    (∀ pid : String,
      (noSectionSrc s pid).Pairwise (fun a b => a.child_order ≤ b.child_order)) ∧
    (∀ pid : String,
      (sortedLiveSections s pid).Pairwise (fun a b => a.section_order ≤ b.section_order)) ∧
    ((sortedRootProjects s).Pairwise (fun a b => a.child_order ≤ b.child_order)) ∧
    (∀ p : Project,
      (sortedProjChildren s p).Pairwise (fun a b => a.child_order ≤ b.child_order)) ∧
    ((sortedLabels s).Pairwise (fun a b => a.item_order ≤ b.item_order)) ∧
    ((processForAI now s).global_definitions.available_labels =
      (sortedLabels s).map (fun l => l.name)) ∧
    (∀ (fuel : Nat) (i : Item),
      (cleanTaskTree s (fuel + 1) i).subtasks =
        (taskChildrenSrc s i).map (cleanTaskTree s fuel)) ∧
    (∀ (fuel : Nat) (p : Project),
      (finalizeProject s (fuel + 1) p).sub_projects =
        (sortedProjChildren s p).map (finalizeProject s fuel)) ∧
    ((processForAI now s).projects_tree =
      (sortedRootProjects s).map (finalizeProject s (projFuel s))) := by
  refine ⟨itemEntries_pairwise hN, ?_, ?_, ?_, ?_, ?_, ?_, ?_, rfl, ?_, ?_, rfl⟩
  · intro e
    exact List.Pairwise.sublist (List.filter_sublist _) (itemEntries_pairwise hN)
  · intro pid sid
    exact List.Pairwise.sublist (List.filter_sublist _) (rootItems_pairwise hN)
  · intro pid
    exact List.Pairwise.sublist (List.filter_sublist _) (rootItems_pairwise hN)
  · intro pid
    exact sortByKey_pairwise _ _
  · exact sortByKey_pairwise _ _
  · intro p
    exact sortByKey_pairwise _ _
  · exact sortByKey_pairwise _ _
  · intro fuel i
    rfl
  · intro fuel p
    rfl

/-- Witness for claim C3 at a concrete snapshot with out-of-order input. -/
theorem claim_C3_witness :
    ((exOrder.items.map (fun i => i.id)).Nodup) ∧
    ((itemEntries exOrder).Pairwise (fun a b => a.child_order ≤ b.child_order)) :=
  ⟨by decide, (claim_C3 "t" exOrder (by decide)).1⟩

end Todoist

namespace Todoist

theorem taskSelfAndDesc_eq (t : CleanTask) :
    taskSelfAndDesc t = t :: tasksSelfAndDesc t.subtasks := by
  cases t
  simp [taskSelfAndDesc, CleanTask.subtasks]

theorem mem_tasksSelfAndDesc {L : List CleanTask} {ct : CleanTask} :
    ct ∈ tasksSelfAndDesc L ↔ ∃ t ∈ L, ct ∈ taskSelfAndDesc t := by
  induction L with
  | nil => simp [tasksSelfAndDesc]
  | cons t ts ih => simp [tasksSelfAndDesc, ih, List.mem_append]

theorem projSelfAndDesc_eq (p : CleanProject) :
    projSelfAndDesc p = p :: projsSelfAndDesc p.sub_projects := by
  cases p
  simp [projSelfAndDesc, CleanProject.sub_projects]

theorem mem_projsSelfAndDesc {L : List CleanProject} {cp : CleanProject} :
    cp ∈ projsSelfAndDesc L ↔ ∃ p ∈ L, cp ∈ projSelfAndDesc p := by
  induction L with
  | nil => simp [projsSelfAndDesc]
  | cons p ps ih => simp [projsSelfAndDesc, ih, List.mem_append]

theorem self_mem_projSelfAndDesc (p : CleanProject) : p ∈ projSelfAndDesc p := by
  rw [projSelfAndDesc_eq]
  exact List.mem_cons_self _ _

theorem mem_exportProjects_of_tree {e : FullExport} {cp : CleanProject}
    (h : cp ∈ e.projects_tree) : cp ∈ exportProjects e :=
  mem_projsSelfAndDesc.mpr ⟨cp, h, self_mem_projSelfAndDesc cp⟩

theorem finalizeProject_sections (s : Snapshot) (fuel : Nat) (p : Project) :
    (finalizeProject s fuel p).sections = projSections s p.id := by
  cases fuel <;> rfl

theorem finalizeProject_tasks (s : Snapshot) (fuel : Nat) (p : Project) :
    (finalizeProject s fuel p).tasks =
      (noSectionSrc s p.id).map (cleanTaskTree s (itemFuel s)) := by
  cases fuel <;> rfl

theorem mem_rootItems_entries {s : Snapshot} {e : Item}
    (h : e ∈ rootItems s) : e ∈ itemEntries s :=
  (List.mem_filter.mp h).1

theorem mem_noSectionSrc_root {s : Snapshot} {pid : String} {e : Item}
    (h : e ∈ noSectionSrc s pid) : e ∈ rootItems s :=
  (List.mem_filter.mp h).1

theorem mem_sectionTasksSrc_root {s : Snapshot} {pid sid : String} {e : Item}
    (h : e ∈ sectionTasksSrc s pid sid) : e ∈ rootItems s :=
  (List.mem_filter.mp h).1

theorem mem_taskChildrenSrc_entries {s : Snapshot} {i e : Item}
    (h : e ∈ taskChildrenSrc s i) : e ∈ itemEntries s :=
  (List.mem_filter.mp h).1

theorem mem_projChildrenSrc_entries {s : Snapshot} {p q : Project}
    (h : q ∈ projChildrenSrc s p) : q ∈ projectEntries s :=
  (List.mem_filter.mp h).1

theorem mem_rootProjects_entries {s : Snapshot} {p : Project}
    (h : p ∈ rootProjects s) : p ∈ projectEntries s :=
  (List.mem_filter.mp h).1

theorem mem_sortedLiveSections {s : Snapshot} {pid : String} {sec : Section}
    (h : sec ∈ sortedLiveSections s pid) :
    sec ∈ s.sections ∧ sec.project_id = pid ∧ sec.is_deleted = false := by
  unfold sortedLiveSections at h
  rcases List.mem_filter.mp (mem_sortByKey.mp h) with ⟨h1, h2⟩
  simp only [Bool.and_eq_true, decide_eq_true_eq, Bool.not_eq_true'] at h2
  exact ⟨h1, h2.1, h2.2⟩

theorem taskTree_sources (s : Snapshot) :
    ∀ (fuel : Nat) (i : Item), i ∈ itemEntries s →
      ∀ ct ∈ taskSelfAndDesc (cleanTaskTree s fuel i),
        ∃ j, j ∈ itemEntries s ∧ ∃ f, ct = cleanTaskTree s f j := by
  intro fuel
  induction fuel with
  | zero =>
    intro i hi ct hct
    rw [taskSelfAndDesc_eq] at hct
    have hsub : (cleanTaskTree s 0 i).subtasks = [] := rfl
    rw [hsub] at hct
    simp only [tasksSelfAndDesc] at hct
    rcases List.mem_cons.mp hct with hEq | hFalse
    · exact ⟨i, hi, 0, hEq⟩
    · cases hFalse
  | succ fuel ih =>
    intro i hi ct hct
    rw [taskSelfAndDesc_eq] at hct
    have hsub : (cleanTaskTree s (fuel + 1) i).subtasks =
        (taskChildrenSrc s i).map (cleanTaskTree s fuel) := rfl
    rw [hsub] at hct
    rcases List.mem_cons.mp hct with hEq | hIn
    · exact ⟨i, hi, fuel + 1, hEq⟩
    · rcases mem_tasksSelfAndDesc.mp hIn with ⟨t, ht, hct'⟩
      rcases List.mem_map.mp ht with ⟨j, hj, hjt⟩
      exact ih j (mem_taskChildrenSrc_entries hj) ct (hjt ▸ hct')

theorem projTree_sources (s : Snapshot) :
    ∀ (fuel : Nat) (p : Project), p ∈ projectEntries s →
      ∀ cp ∈ projSelfAndDesc (finalizeProject s fuel p),
        ∃ q, q ∈ projectEntries s ∧ ∃ f, cp = finalizeProject s f q := by
  intro fuel
  induction fuel with
  | zero =>
    intro p hp cp hcp
    rw [projSelfAndDesc_eq] at hcp
    have hsub : (finalizeProject s 0 p).sub_projects = [] := rfl
    rw [hsub] at hcp
    simp only [projsSelfAndDesc] at hcp
    rcases List.mem_cons.mp hcp with hEq | hFalse
    · exact ⟨p, hp, 0, hEq⟩
    · cases hFalse
  | succ fuel ih =>
    intro p hp cp hcp
    rw [projSelfAndDesc_eq] at hcp
    have hsub : (finalizeProject s (fuel + 1) p).sub_projects =
        (sortedProjChildren s p).map (finalizeProject s fuel) := rfl
    rw [hsub] at hcp
    rcases List.mem_cons.mp hcp with hEq | hIn
    · exact ⟨p, hp, fuel + 1, hEq⟩
    · rcases mem_projsSelfAndDesc.mp hIn with ⟨c, hc, hcp'⟩
      rcases List.mem_map.mp hc with ⟨q, hq, hqc⟩
      have hqE : q ∈ projectEntries s :=
        mem_projChildrenSrc_entries (mem_sortByKey.mp hq)
      exact ih q hqE cp (hqc ▸ hcp')

theorem exportProjects_sources (now : String) (s : Snapshot) :
    ∀ cp ∈ exportProjects (processForAI now s),
      ∃ q, q ∈ projectEntries s ∧ ∃ f, cp = finalizeProject s f q := by
  intro cp hcp
  rcases mem_projsSelfAndDesc.mp hcp with ⟨root, hroot, hin⟩
  rcases List.mem_map.mp hroot with ⟨r, hr, hrEq⟩
  have hrE : r ∈ projectEntries s :=
    mem_rootProjects_entries (mem_sortByKey.mp hr)
  exact projTree_sources s (projFuel s) r hrE cp (hrEq ▸ hin)

end Todoist

namespace Todoist

/-- Claim C2: soft-delete exclusion.  Every project, section, task (at
any depth) and filter occurring anywhere in the export originates from a
record of the snapshot whose delete flag is unset, so no soft-deleted
record appears in the output, directly or as an ancestor or descendant
container. -/
theorem claim_C2 (now : String) (s : Snapshot) :
    (∀ cp ∈ exportProjects (processForAI now s),
      ∃ p, p ∈ s.projects ∧ p.is_deleted = false ∧
        ∃ f, cp = finalizeProject s f p) ∧
    (∀ cs ∈ exportSections (processForAI now s),
      ∃ sec, sec ∈ s.sections ∧ sec.is_deleted = false ∧
        cs = { name := sec.name,
               tasks := (sectionTasksSrc s sec.project_id sec.id).map
                 (cleanTaskTree s (itemFuel s)) }) ∧
    (∀ ct ∈ exportTasks (processForAI now s),
      ∃ i, i ∈ s.items ∧ i.is_deleted = false ∧
        ∃ f, ct = cleanTaskTree s f i) ∧
    (∀ cf ∈ (processForAI now s).global_definitions.available_filters,
      ∃ fi, fi ∈ s.filters ∧ fi.is_deleted = false ∧
        cf = { name := fi.name, query := fi.query }) := by
  refine ⟨?_, ?_, ?_, ?_⟩
  · intro cp hcp
    rcases exportProjects_sources now s cp hcp with ⟨q, hq, f, hEq⟩
    rcases mem_projectEntries hq with ⟨h1, h2⟩
    exact ⟨q, h1, h2, f, hEq⟩
  · intro cs hcs
    unfold exportSections at hcs
    rcases List.mem_flatten.mp hcs with ⟨l, hl, hcsl⟩
    rcases List.mem_map.mp hl with ⟨cp, hcp, hcpl⟩
    rcases exportProjects_sources now s cp hcp with ⟨q, _, f, hcpEq⟩
    rw [← hcpl, hcpEq, finalizeProject_sections] at hcsl
    rcases List.mem_map.mp hcsl with ⟨sec, hsec, hcsEq⟩
    rcases mem_sortedLiveSections hsec with ⟨h1, h2, h3⟩
    refine ⟨sec, h1, h3, ?_⟩
    rw [← hcsEq, h2]
  · intro ct hct
    unfold exportTasks at hct
    rcases mem_tasksSelfAndDesc.mp hct with ⟨t, ht, htd⟩
    rcases List.mem_flatten.mp ht with ⟨l, hl, htl⟩
    rcases List.mem_map.mp hl with ⟨cp, hcp, hcpl⟩
    rcases exportProjects_sources now s cp hcp with ⟨q, _, f, hcpEq⟩
    rw [← hcpl, hcpEq] at htl
    have hsrc : ∃ j, j ∈ itemEntries s ∧ t = cleanTaskTree s (itemFuel s) j := by
      rcases List.mem_append.mp htl with hA | hB
      · rw [finalizeProject_tasks] at hA
        rcases List.mem_map.mp hA with ⟨j, hj, hjEq⟩
        exact ⟨j, mem_rootItems_entries (mem_noSectionSrc_root hj), hjEq.symm⟩
      · rcases List.mem_flatten.mp hB with ⟨l2, hl2, htl2⟩
        rcases List.mem_map.mp hl2 with ⟨cs, hcsIn, hcsEq⟩
        rw [finalizeProject_sections] at hcsIn
        rcases List.mem_map.mp hcsIn with ⟨sec, _, hsecEq⟩
        rw [← hcsEq, ← hsecEq] at htl2
        rcases List.mem_map.mp htl2 with ⟨j, hj, hjEq⟩
        exact ⟨j, mem_rootItems_entries (mem_sectionTasksSrc_root hj), hjEq.symm⟩
    rcases hsrc with ⟨j, hjE, htEq⟩
    rcases taskTree_sources s (itemFuel s) j hjE ct (htEq ▸ htd) with ⟨j', hj', f', hctEq⟩
    rcases mem_itemEntries hj' with ⟨h1, h2⟩
    exact ⟨j', h1, h2, f', hctEq⟩
  · intro cf hcf
    have hcf' : cf ∈ allFilters s := hcf
    unfold allFilters at hcf'
    rcases List.mem_map.mp hcf' with ⟨fi, hfi, hEq⟩
    rcases List.mem_filter.mp (mem_sortByKey.mp hfi) with ⟨h1, h2⟩
    exact ⟨fi, h1, by simpa using h2, hEq.symm⟩

/-- Witness for claim C2: the root project of a concrete snapshot comes
from a live raw project. -/
theorem claim_C2_witness :
    ∃ p, p ∈ exOrder.projects ∧ p.is_deleted = false ∧
      ∃ f, finalizeProject exOrder (projFuel exOrder) exOrderProjA =
        finalizeProject exOrder f p :=
  (claim_C2 "t" exOrder).1 _
    (mem_exportProjects_of_tree (List.mem_map_of_mem _ (by decide)))

/-- Claim C8: every live section of a live project appears in that
project's sections list (in the output node `finalizeProject` produces,
whose sections do not depend on the recursion depth), with an empty
tasks sequence when its bucket is empty. -/
theorem claim_C8 (s : Snapshot) (hN : (s.projects.map (fun p => p.id)).Nodup)
    (p : Project) (hp : p ∈ s.projects) (hpl : p.is_deleted = false)
    (sec : Section) (hs : sec ∈ s.sections) (hsp : sec.project_id = p.id)
    (hsl : sec.is_deleted = false) :
    p ∈ projectEntries s ∧
    ({ name := sec.name,
       tasks := (sectionTasksSrc s p.id sec.id).map (cleanTaskTree s (itemFuel s)) } :
        CleanSection) ∈ projSections s p.id ∧
    (∀ fuel, (finalizeProject s fuel p).sections = projSections s p.id) ∧
    (sectionTasksSrc s p.id sec.id = [] →
      ({ name := sec.name, tasks := [] } : CleanSection) ∈ projSections s p.id) := by
  have hmem : sec ∈ sortedLiveSections s p.id := by
    apply mem_sortByKey.mpr
    exact List.mem_filter.mpr ⟨hs, by simp [hsp, hsl]⟩
  have hsecmem :
      ({ name := sec.name,
         tasks := (sectionTasksSrc s p.id sec.id).map (cleanTaskTree s (itemFuel s)) } :
          CleanSection) ∈ projSections s p.id :=
    List.mem_map_of_mem _ hmem
  refine ⟨?_, hsecmem, fun fuel => finalizeProject_sections s fuel p, ?_⟩
  · rw [projectEntries_eq_live hN]
    exact List.mem_filter.mpr ⟨hp, by simp [hpl]⟩
  · intro hempty
    rw [hempty, List.map_nil] at hsecmem
    exact hsecmem

/-- Witness for claim C8 at a concrete snapshot with an empty live
section. -/
theorem claim_C8_witness :
    exOrderProjA ∈ projectEntries exOrder ∧
    ({ name := "s1", tasks := ([] : List CleanTask) } : CleanSection) ∈
      projSections exOrder "A" := by
  have h := claim_C8 exOrder (by decide) exOrderProjA (by decide) rfl
    exOrderSec1 (by decide) rfl rfl
  exact ⟨h.1, h.2.2.2 (by decide)⟩

end Todoist

namespace Todoist

/-- Claim C5: orphan promotion.  A live task whose `parent_id` does not
refer to a live task becomes a root item and lands in the bucket for its
own project/section, and is nested under no task; a live project whose
`parent_id` does not refer to a live project becomes a root project and
appears at the top level of `projects_tree`, and is nested under no
project. -/
theorem claim_C5 (now : String) (s : Snapshot)
    (hNi : (s.items.map (fun i => i.id)).Nodup)
    (hNp : (s.projects.map (fun p => p.id)).Nodup) :
    (∀ e, e ∈ s.items → e.is_deleted = false →
      (∀ j, j ∈ s.items → j.is_deleted = false → some j.id ≠ e.parent_id) →
      e ∈ rootItems s ∧
      (truthyStr e.section_id = false → e ∈ noSectionSrc s e.project_id) ∧
      (∀ v, e.section_id = some v → v ≠ "" →
        e ∈ sectionTasksSrc s e.project_id v) ∧
      (∀ j, j ∈ itemEntries s → e ∉ taskChildrenSrc s j)) ∧
    (∀ p, p ∈ s.projects → p.is_deleted = false →
      (∀ q, q ∈ s.projects → q.is_deleted = false → some q.id ≠ p.parent_id) →
      p ∈ rootProjects s ∧
      finalizeProject s (projFuel s) p ∈ (processForAI now s).projects_tree ∧
      (∀ q, q ∈ projectEntries s → p ∉ projChildrenSrc s q)) := by
  constructor
  · intro e he hlive hcond
    have heE : e ∈ itemEntries s := by
      rw [itemEntries_eq_liveSorted hNi]
      exact List.mem_filter.mpr ⟨mem_sortByKey.mpr he, by simp [hlive]⟩
    have hany :
        ((itemEntries s).any (fun j => decide (some j.id = e.parent_id))) = false := by
      rw [List.any_eq_false]
      intro j hj
      simp only [decide_eq_true_eq]
      rcases mem_itemEntries hj with ⟨h1, h2⟩
      exact hcond j h1 h2
    have hpar : hasLiveParent s e = false := by
      unfold hasLiveParent
      rw [hany, Bool.and_false]
    have hroot : e ∈ rootItems s :=
      List.mem_filter.mpr ⟨heE, by simp [hpar]⟩
    refine ⟨hroot, ?_, ?_, ?_⟩
    · intro htr
      exact List.mem_filter.mpr ⟨hroot, by simp [htr]⟩
    · intro v hv hvne
      refine List.mem_filter.mpr ⟨hroot, ?_⟩
      simp [hv, truthyStr, hvne]
    · intro j hj hmem
      rcases List.mem_filter.mp hmem with ⟨_, hpred⟩
      simp only [Bool.and_eq_true, decide_eq_true_eq] at hpred
      rcases mem_itemEntries hj with ⟨h1, h2⟩
      exact hcond j h1 h2 (by rw [hpred.2])
  · intro p hp hlive hcond
    have hpE : p ∈ projectEntries s := by
      rw [projectEntries_eq_live hNp]
      exact List.mem_filter.mpr ⟨hp, by simp [hlive]⟩
    have hany :
        ((projectEntries s).any (fun q => decide (some q.id = p.parent_id))) = false := by
      rw [List.any_eq_false]
      intro q hq
      simp only [decide_eq_true_eq]
      rcases mem_projectEntries hq with ⟨h1, h2⟩
      exact hcond q h1 h2
    have hpar : projHasLiveParent s p = false := by
      unfold projHasLiveParent
      rw [hany, Bool.and_false]
    have hroot : p ∈ rootProjects s :=
      List.mem_filter.mpr ⟨hpE, by simp [hpar]⟩
    refine ⟨hroot, List.mem_map_of_mem _ (mem_sortByKey.mpr hroot), ?_⟩
    intro q hq hmem
    rcases List.mem_filter.mp hmem with ⟨_, hpred⟩
    simp only [Bool.and_eq_true, decide_eq_true_eq] at hpred
    rcases mem_projectEntries hq with ⟨h1, h2⟩
    exact hcond q h1 h2 (by rw [hpred.2])

/-- Witness for claim C5: a live task whose parent is soft-deleted ends
up a root item in its project's no-section bucket. -/
theorem claim_C5_witness :
    exOrphanChild ∈ rootItems exOrphan ∧
    exOrphanChild ∈ noSectionSrc exOrphan "A" := by
  have h := (claim_C5 "t" exOrphan (by decide) (by decide)).1 exOrphanChild
    (by decide) rfl (by decide)
  exact ⟨h.1, h.2.1 rfl⟩

/-- Claim C10: silent loss.  A root item whose project id names no live
project, or whose truthy section id names no live section of its
project, lies in no bucket the output construction consults: it is in
no live project's no-section bucket, in no live section's bucket, and
in no subtasks source list; the transform offers no other output path
or error channel. -/
theorem claim_C10 (s : Snapshot) (e : Item) (he : e ∈ rootItems s)
    (hdead :
      (∀ p, p ∈ s.projects → p.is_deleted = false → p.id ≠ e.project_id) ∨
      (∃ v, e.section_id = some v ∧ v ≠ "" ∧
        ∀ sec, sec ∈ s.sections → sec.is_deleted = false →
          sec.project_id = e.project_id → sec.id ≠ v)) :
    (∀ p, p ∈ projectEntries s →
      e ∉ noSectionSrc s p.id ∧
      ∀ sec ∈ sortedLiveSections s p.id, e ∉ sectionTasksSrc s p.id sec.id) ∧
    (∀ j, j ∈ itemEntries s → e ∉ taskChildrenSrc s j) := by
  constructor
  · intro p hpE
    rcases hdead with hnoproj | ⟨v, hv, hvne, hnosec⟩
    · have hne : p.id ≠ e.project_id := by
        rcases mem_projectEntries hpE with ⟨h1, h2⟩
        exact hnoproj p h1 h2
      constructor
      · intro hmem
        rcases List.mem_filter.mp hmem with ⟨_, hpred⟩
        simp only [Bool.and_eq_true, decide_eq_true_eq] at hpred
        exact hne hpred.1.symm
      · intro sec _ hmem
        rcases List.mem_filter.mp hmem with ⟨_, hpred⟩
        simp only [Bool.and_eq_true, decide_eq_true_eq] at hpred
        exact hne hpred.1.1.symm
    · constructor
      · intro hmem
        rcases List.mem_filter.mp hmem with ⟨_, hpred⟩
        simp only [Bool.and_eq_true, decide_eq_true_eq, Bool.not_eq_true'] at hpred
        rw [hv] at hpred
        simp [truthyStr, hvne] at hpred
      · intro sec hsec hmem
        rcases List.mem_filter.mp hmem with ⟨_, hpred⟩
        simp only [Bool.and_eq_true, decide_eq_true_eq] at hpred
        rcases hpred with ⟨⟨hpid, _⟩, hsid⟩
        have hveq : sec.id = v := by
          rw [hv] at hsid
          exact (Option.some.inj hsid).symm
        rcases mem_sortedLiveSections hsec with ⟨h1, h2, h3⟩
        exact hnosec sec h1 h3 (by rw [h2, ← hpid]) hveq
  · intro j hj hmem
    rcases List.mem_filter.mp he with ⟨_, hrootpred⟩
    rcases List.mem_filter.mp hmem with ⟨_, hpred⟩
    simp only [Bool.and_eq_true, decide_eq_true_eq] at hpred
    have hany :
        ((itemEntries s).any (fun j' => decide (some j'.id = e.parent_id))) = true :=
      List.any_eq_true.mpr ⟨j, hj, by simp [hpred.2]⟩
    have hlp : hasLiveParent s e = true := by
      unfold hasLiveParent
      rw [hpred.1, hany]
      rfl
    rw [hlp] at hrootpred
    simp at hrootpred

/-- Witness for claim C10: a live root task whose section is
soft-deleted is in no consulted bucket and in no subtasks source. -/
theorem claim_C10_witness :
    exDeadTask ∉ noSectionSrc exDead "A" ∧
    (∀ j, j ∈ itemEntries exDead → exDeadTask ∉ taskChildrenSrc exDead j) := by
  have h := claim_C10 exDead exDeadTask (by decide)
    (Or.inr ⟨"S", rfl, by decide, by decide⟩)
  exact ⟨(h.1 exDeadProjA (by decide)).1, h.2⟩

end Todoist

namespace Todoist

theorem labelMapList_eq {s : Snapshot}
    (hN : (s.labels.map (fun l => l.id)).Nodup) :
    labelMapList s = (sortedLabels s).map (fun l => (l.id, l.name)) := by
  apply jsMapOf_eq_self
  have hkeys : ((sortedLabels s).map (fun l => (l.id, l.name))).map Prod.fst =
      (sortedLabels s).map (fun l => l.id) := by
    rw [List.map_map]
    rfl
  rw [hkeys]
  exact (((sortByKey_perm (fun l => l.item_order) s.labels).map
    (fun l => l.id)).nodup_iff).mpr hN

theorem find?_map_pair (l : List Label) (lid : String) :
    ((l.map (fun lb => (lb.id, lb.name))).find? (fun e => decide (e.1 = lid))) =
      (l.find? (fun lb => decide (lb.id = lid))).map (fun lb => (lb.id, lb.name)) := by
  induction l with
  | nil => rfl
  | cons x t ih =>
    by_cases h : x.id = lid <;> simp [List.find?_cons, h, ih]

theorem eq_of_mem_mem_id {l : List Label}
    (hN : (l.map (fun lb => lb.id)).Nodup) {a b : Label}
    (ha : a ∈ l) (hb : b ∈ l) (hid : a.id = b.id) : a = b :=
  List.inj_on_of_nodup_map hN ha hb hid

theorem find?_id_eq_of_perm_nodup {l1 l2 : List Label}
    (hperm : List.Perm l1 l2) (hN : (l2.map (fun lb => lb.id)).Nodup)
    (lid : String) :
    l1.find? (fun lb => decide (lb.id = lid)) =
      l2.find? (fun lb => decide (lb.id = lid)) := by
  rcases h1 : l1.find? (fun lb => decide (lb.id = lid)) with _ | x1
  · rcases h2 : l2.find? (fun lb => decide (lb.id = lid)) with _ | x2
    · rw [h1, h2]
    · exfalso
      have hx2 : x2 ∈ l2 := List.mem_of_find?_eq_some h2
      have hp2 : x2.id = lid := by simpa using List.find?_some h2
      have hnone := List.find?_eq_none.mp h1 x2 (hperm.mem_iff.mpr hx2)
      simp [hp2] at hnone
  · have hx1 : x1 ∈ l1 := List.mem_of_find?_eq_some h1
    have hp1 : x1.id = lid := by simpa using List.find?_some h1
    rcases h2 : l2.find? (fun lb => decide (lb.id = lid)) with _ | x2
    · exfalso
      have hnone := List.find?_eq_none.mp h2 x1 (hperm.mem_iff.mp hx1)
      simp [hp1] at hnone
    · have hx2 : x2 ∈ l2 := List.mem_of_find?_eq_some h2
      have hp2 : x2.id = lid := by simpa using List.find?_some h2
      rw [h1, h2, eq_of_mem_mem_id hN (hperm.mem_iff.mp hx1) hx2 (hp1.trans hp2.symm)]

theorem resolveLabel_eq_find {s : Snapshot}
    (hN : (s.labels.map (fun l => l.id)).Nodup) (lid : String) :
    resolveLabel s lid =
      match s.labels.find? (fun l => decide (l.id = lid)) with
      | some l => if l.name ≠ "" then l.name else "Unknown Label"
      | none => "Unknown Label" := by
  unfold resolveLabel labelMapGet
  rw [labelMapList_eq hN, find?_map_pair,
    find?_id_eq_of_perm_nodup
      (show List.Perm (sortedLabels s) s.labels by
        unfold sortedLabels
        exact sortByKey_perm (fun l => l.item_order) s.labels) hN lid]
  rcases hfind : s.labels.find? (fun l => decide (l.id = lid)) with _ | l <;>
    simp only [hfind, Option.map_some, Option.map_none, Option.map]

/-- Claim C6 (amended): for every task and every label id in its
sequence, the output entry is the name of the (unique) raw label with
that id when such a label exists and its name is non-empty, and the
literal `"Unknown Label"` when no label with that id exists or its name
is the empty string.  Resolution is total and per-task order is
preserved (the output is the elementwise image of the task's label-id
sequence). -/
theorem claim_C6_amended (s : Snapshot)
    (hN : (s.labels.map (fun l => l.id)).Nodup) (i : Item) (fuel : Nat) :
    (cleanTaskTree s fuel i).labels =
      i.labels.map (fun lid =>
        match s.labels.find? (fun l => decide (l.id = lid)) with
        | some l => if l.name ≠ "" then l.name else "Unknown Label"
        | none => "Unknown Label") := by
  have hlabels : (cleanTaskTree s fuel i).labels = i.labels.map (resolveLabel s) := by
    cases fuel <;> rfl
  rw [hlabels]
  exact List.map_congr_left (fun lid _ => resolveLabel_eq_find hN lid)

/-- Witness for claim C6 at a concrete snapshot with one resolvable and
one unresolvable label id. -/
theorem claim_C6_witness :
    ((exLabels.labels.map (fun l => l.id)).Nodup) ∧
    (cleanTaskTree exLabels (itemFuel exLabels)
        { id := "1", project_id := "P", section_id := none, parent_id := none,
          content := "t", description := none, priority := 1, checked := 0,
          due := none, labels := ["L1", "MISSING"], child_order := 0,
          is_deleted := false }).labels =
      ["L1", "MISSING"].map (fun lid =>
        match exLabels.labels.find? (fun l => decide (l.id = lid)) with
        | some l => if l.name ≠ "" then l.name else "Unknown Label"
        | none => "Unknown Label") :=
  ⟨by decide, claim_C6_amended exLabels (by decide) _ _⟩

/-- Claim C6 counterexample: a label that exists but whose name is the
empty string resolves to `"Unknown Label"`, not to its name, because the
code uses `labelMap.get(id) || "Unknown Label"` and `""` is falsy. -/
theorem claim_C6_cex :
    exBlankLabel ∈ exBlank.labels ∧ exBlankLabel.id = "L1" ∧
    exBlankLabel.name = "" ∧ exBlankItem.labels = ["L1"] ∧
    (cleanTaskTree exBlank (itemFuel exBlank) exBlankItem).labels =
      ["Unknown Label"] ∧
    (cleanTaskTree exBlank (itemFuel exBlank) exBlankItem).labels ≠ [""] := by
  refine ⟨by decide, rfl, rfl, rfl, by decide, by decide⟩

end Todoist

namespace Todoist

theorem keysOfList_append (a b : List Json) :
    keysOfList (a ++ b) = keysOfList a ++ keysOfList b := by
  induction a with
  | nil => simp [keysOfList]
  | cons j js ih => simp [keysOfList, ih]

theorem keysOfKVs_append (a b : List (String × Json)) :
    keysOfKVs (a ++ b) = keysOfKVs a ++ keysOfKVs b := by
  induction a with
  | nil => simp [keysOfKVs]
  | cons x t ih =>
    rcases x with ⟨k, j⟩
    simp [keysOfKVs, ih]

theorem keysOfList_map_str (l : List String) : keysOfList (l.map Json.str) = [] := by
  induction l with
  | nil => simp [keysOfList]
  | cons x t ih => simp [keysOfList, Json.keys, ih]

theorem mem_keysOfList_taskListJson {L : List CleanTask} {k : String} :
    k ∈ keysOfList (taskListJson L) ↔ ∃ t ∈ L, k ∈ (CleanTask.toJson t).keys := by
  induction L with
  | nil => simp [taskListJson, keysOfList]
  | cons t ts ih => simp [taskListJson, keysOfList, ih, List.mem_append]

theorem mem_keysOfList_projListJson {L : List CleanProject} {k : String} :
    k ∈ keysOfList (projListJson L) ↔ ∃ p ∈ L, k ∈ (CleanProject.toJson p).keys := by
  induction L with
  | nil => simp [projListJson, keysOfList]
  | cons p ps ih => simp [projListJson, keysOfList, ih, List.mem_append]

theorem mem_keysOfList_map {f : α → Json} {L : List α} {k : String} :
    k ∈ keysOfList (L.map f) ↔ ∃ x ∈ L, k ∈ (f x).keys := by
  induction L with
  | nil => simp [keysOfList]
  | cons x t ih => simp [keysOfList, ih, List.mem_append]

end Todoist

namespace Todoist

theorem mem_keysOfKVs_optStrField {fname k : String} {v : Option String}
    (h : k ∈ keysOfKVs (optStrField fname v)) : k = fname := by
  cases v with
  | none => simp [optStrField, keysOfKVs] at h
  | some x => simpa [optStrField, keysOfKVs, Json.keys] using h

theorem taskNode_keys {c : String} {d : Option String} {p : String}
    {u : Option String} {b : Bool} {labs : List String}
    {subs : List CleanTask} {k : String}
    (hk : k ∈ (CleanTask.toJson (.mk c d p u b labs subs)).keys) :
    k = "content" ∨ k = "description" ∨ k = "priority" ∨ k = "due" ∨
    k = "is_completed" ∨ k = "labels" ∨ k = "subtasks" ∨
    k ∈ keysOfList (taskListJson subs) := by
  simp only [CleanTask.toJson, Json.keys, List.append_eq, keysOfKVs_append,
    List.mem_append, keysOfKVs, keysOfList_map_str, List.mem_cons,
    List.not_mem_nil, or_false, false_or, List.append_nil,
    List.nil_append] at hk
  rcases hk with h | ((h | h) | h) | h | h | h | h
  · exact Or.inl h
  · exact Or.inr (Or.inl (mem_keysOfKVs_optStrField h))
  · exact Or.inr (Or.inr (Or.inl h))
  · exact Or.inr (Or.inr (Or.inr (Or.inl (mem_keysOfKVs_optStrField h))))
  · exact Or.inr (Or.inr (Or.inr (Or.inr (Or.inl h))))
  · exact Or.inr (Or.inr (Or.inr (Or.inr (Or.inr (Or.inl h)))))
  · exact Or.inr (Or.inr (Or.inr (Or.inr (Or.inr (Or.inr (Or.inl h))))))
  · exact Or.inr (Or.inr (Or.inr (Or.inr (Or.inr (Or.inr (Or.inr h))))))

end Todoist

namespace Todoist

theorem projNode_keys {n : String} {a : Bool} {v : String}
    {secs : List CleanSection} {ts : List CleanTask}
    {subs : List CleanProject} {k : String}
    (hk : k ∈ (CleanProject.toJson (.mk n a v secs ts subs)).keys) :
    k = "project" ∨ k = "is_archived" ∨ k = "view_style" ∨ k = "sections" ∨
    k ∈ keysOfList (secs.map CleanSection.toJson) ∨ k = "tasks" ∨
    k ∈ keysOfList (taskListJson ts) ∨ k = "sub_projects" ∨
    k ∈ keysOfList (projListJson subs) := by
  simpa only [CleanProject.toJson, Json.keys, List.append_eq, keysOfKVs_append,
    List.mem_append, keysOfKVs, keysOfList_map_str, List.mem_cons,
    List.not_mem_nil, or_false, false_or, List.append_nil,
    List.nil_append] using hk

theorem secNode_keys {cs : CleanSection} {k : String}
    (hk : k ∈ (CleanSection.toJson cs).keys) :
    k = "name" ∨ k = "tasks" ∨ k ∈ keysOfList (taskListJson cs.tasks) := by
  simpa only [CleanSection.toJson, Json.keys, List.append_eq, keysOfKVs_append,
    List.mem_append, keysOfKVs, keysOfList_map_str, List.mem_cons,
    List.not_mem_nil, or_false, false_or, List.append_nil,
    List.nil_append] using hk

theorem filterNode_keys {cf : CleanFilter} {k : String}
    (hk : k ∈ (CleanFilter.toJson cf).keys) : k = "name" ∨ k = "query" := by
  simpa only [CleanFilter.toJson, Json.keys, keysOfKVs, List.mem_cons,
    List.not_mem_nil, or_false, List.append_nil, List.nil_append,
    List.mem_append] using hk

theorem taskJson_keys (s : Snapshot) :
    ∀ (fuel : Nat) (i : Item),
      ∀ k ∈ (CleanTask.toJson (cleanTaskTree s fuel i)).keys, k ∈ exportKeys := by
  intro fuel
  induction fuel with
  | zero =>
    intro i k hk
    rcases taskNode_keys hk with rfl | rfl | rfl | rfl | rfl | rfl | rfl | h
    · decide
    · decide
    · decide
    · decide
    · decide
    · decide
    · decide
    · simp [taskListJson, keysOfList] at h
  | succ fuel ih =>
    intro i k hk
    rcases taskNode_keys hk with rfl | rfl | rfl | rfl | rfl | rfl | rfl | h
    · decide
    · decide
    · decide
    · decide
    · decide
    · decide
    · decide
    · rcases mem_keysOfList_taskListJson.mp h with ⟨t, ht, hkt⟩
      rcases List.mem_map.mp ht with ⟨j, _, hjt⟩
      exact ih j k (hjt ▸ hkt)

theorem secJson_keys (s : Snapshot) (pid : String) :
    ∀ cs ∈ projSections s pid, ∀ k ∈ (CleanSection.toJson cs).keys,
      k ∈ exportKeys := by
  intro cs hcs k hk
  rcases secNode_keys hk with rfl | rfl | h
  · decide
  · decide
  · rcases List.mem_map.mp hcs with ⟨sec, _, hsecEq⟩
    rw [← hsecEq] at h
    rcases mem_keysOfList_taskListJson.mp h with ⟨t, ht, hkt⟩
    rcases List.mem_map.mp ht with ⟨j, _, hjt⟩
    exact taskJson_keys s (itemFuel s) j k (hjt ▸ hkt)

theorem projJson_keys (s : Snapshot) :
    ∀ (fuel : Nat) (p : Project),
      ∀ k ∈ (CleanProject.toJson (finalizeProject s fuel p)).keys,
        k ∈ exportKeys := by
  intro fuel
  induction fuel with
  | zero =>
    intro p k hk
    rcases projNode_keys hk with rfl | rfl | rfl | rfl | h | rfl | h | rfl | h
    · decide
    · decide
    · decide
    · decide
    · rcases mem_keysOfList_map.mp h with ⟨cs, hcs, hk2⟩
      exact secJson_keys s p.id cs hcs k hk2
    · decide
    · rcases mem_keysOfList_taskListJson.mp h with ⟨t, ht, hkt⟩
      rcases List.mem_map.mp ht with ⟨j, _, hjt⟩
      exact taskJson_keys s (itemFuel s) j k (hjt ▸ hkt)
    · decide
    · simp [projListJson, keysOfList] at h
  | succ fuel ih =>
    intro p k hk
    rcases projNode_keys hk with rfl | rfl | rfl | rfl | h | rfl | h | rfl | h
    · decide
    · decide
    · decide
    · decide
    · rcases mem_keysOfList_map.mp h with ⟨cs, hcs, hk2⟩
      exact secJson_keys s p.id cs hcs k hk2
    · decide
    · rcases mem_keysOfList_taskListJson.mp h with ⟨t, ht, hkt⟩
      rcases List.mem_map.mp ht with ⟨j, _, hjt⟩
      exact taskJson_keys s (itemFuel s) j k (hjt ▸ hkt)
    · decide
    · rcases mem_keysOfList_projListJson.mp h with ⟨cq, hcq, hk2⟩
      rcases List.mem_map.mp hcq with ⟨q, _, hq⟩
      exact ih q k (hq ▸ hk2)

theorem exportJson_keys (now : String) (s : Snapshot) :
    ∀ k ∈ (FullExport.toJson (processForAI now s)).keys, k ∈ exportKeys := by
  intro k hk
  simp only [FullExport.toJson, Json.keys, List.append_eq, keysOfKVs_append,
    List.mem_append, keysOfKVs, keysOfList_map_str, List.mem_cons,
    List.not_mem_nil, or_false, false_or, List.append_nil,
    List.nil_append] at hk
  rcases hk with rfl | (rfl | rfl | rfl | rfl | rfl | rfl) |
    rfl | (rfl | rfl | h) | rfl | h
  · decide
  · decide
  · decide
  · decide
  · decide
  · decide
  · decide
  · decide
  · decide
  · decide
  · rcases mem_keysOfList_map.mp h with ⟨cf, _, hk2⟩
    rcases filterNode_keys hk2 with rfl | rfl
    · decide
    · decide
  · decide
  · rcases mem_keysOfList_projListJson.mp h with ⟨cp, hcp, hk2⟩
    rcases List.mem_map.mp hcp with ⟨r, _, hr⟩
    exact projJson_keys s (projFuel s) r k (hr ▸ hk2)

/-- Claim C7: no internal identifiers leak.  No object key anywhere in
the serialized export — tasks at any depth, sections, projects, filters,
or the root — is `id`, `project_id`, `section_id`, or `parent_id`. -/
theorem claim_C7 (now : String) (s : Snapshot) :
    ∀ k ∈ (FullExport.toJson (processForAI now s)).keys,
      k ≠ "id" ∧ k ≠ "project_id" ∧ k ≠ "section_id" ∧ k ≠ "parent_id" := by
  intro k hk
  have hks : k ∈ exportKeys := exportJson_keys now s k hk
  have hid : "id" ∉ exportKeys := by decide
  have hpid : "project_id" ∉ exportKeys := by decide
  have hsid : "section_id" ∉ exportKeys := by decide
  have hparid : "parent_id" ∉ exportKeys := by decide
  exact ⟨fun h => hid (h ▸ hks), fun h => hpid (h ▸ hks),
    fun h => hsid (h ▸ hks), fun h => hparid (h ▸ hks)⟩

/-- Witness for claim C7 at the key `"meta"` of a concrete export. -/
theorem claim_C7_witness :
    "meta" ∈ (FullExport.toJson (processForAI "t" exEmpty)).keys ∧
    "meta" ≠ "id" ∧ "meta" ≠ "project_id" ∧ "meta" ≠ "section_id" ∧
    "meta" ≠ "parent_id" := by
  have hmem : "meta" ∈ (FullExport.toJson (processForAI "t" exEmpty)).keys := by
    simp only [FullExport.toJson, Json.keys, List.append_eq, keysOfKVs_append,
      List.mem_append, keysOfKVs, keysOfList_map_str, List.mem_cons,
      List.not_mem_nil, or_false, false_or, List.append_nil, List.nil_append]
    trivial
  exact ⟨hmem, claim_C7 "t" exEmpty "meta" hmem⟩

end Todoist
